import Mathlib

set_option maxRecDepth 8000

/-! Verification development for the node-iracing-sdk telemetry decoder.
The definitions below are a shallow embedding of the TypeScript sources
(`ibt.ts`, `structs.ts`, `utils.ts`, `constants.ts`).  Byte regions are
lists of byte values, machine integers are `Nat`/`Int` with explicit
wrap-around, IEEE-754 floats are decoded exactly into rationals, and the
mutable reader object is modelled by explicit state passing. -/

/-- A byte region (a Node `Buffer`); entries are byte values in `0..255`. -/
abbrev Mem := List Nat

/-- Node `Buffer.readUInt8`.  Reads are modelled totally: a byte outside the
region reads as 0 (every theorem below evaluates reads only in bounds). -/
def readUInt8 (m : Mem) (off : Int) : Nat :=
  if 0 ≤ off then m.getD off.toNat 0 % 256 else 0

/-- Node `Buffer.readUInt32LE`: little-endian unsigned 32-bit read. -/
def readUInt32LE (m : Mem) (off : Int) : Nat :=
  readUInt8 m off + 256 * readUInt8 m (off + 1) +
    65536 * readUInt8 m (off + 2) + 16777216 * readUInt8 m (off + 3)

/-- Node `Buffer.readInt32LE`: little-endian two's-complement 32-bit read. -/
def readInt32LE (m : Mem) (off : Int) : Int :=
  let u := readUInt32LE m off
  if u < 2147483648 then (u : Int) else (u : Int) - 4294967296

/-- Exact value of an IEEE-754 float: not-a-number, a signed infinity, or a
finite rational (the sign flag of `inf` is true for negative infinity). -/
inductive FVal where
  | nan : FVal
  | inf : Bool → FVal
  | fin : ℚ → FVal
deriving DecidableEq

/-- Exact decoding of an IEEE-754 single-precision bit pattern. -/
def decodeF32 (bits : Nat) : FVal :=
  let sign : ℕ := bits / 2 ^ 31 % 2
  let expo : ℕ := bits / 2 ^ 23 % 2 ^ 8
  let frac : ℕ := bits % 2 ^ 23
  if expo = 255 then (if frac = 0 then .inf (sign = 1) else .nan)
  else
    let mag : ℚ := if expo = 0 then (frac : ℚ) / 2 ^ 149 else ((2 ^ 23 + frac : ℚ) * 2 ^ expo) / 2 ^ 150
    .fin (if sign = 1 then -mag else mag)

/-- Exact decoding of an IEEE-754 double-precision bit pattern. -/
def decodeF64 (bits : Nat) : FVal :=
  let sign : ℕ := bits / 2 ^ 63 % 2
  let expo : ℕ := bits / 2 ^ 52 % 2 ^ 11
  let frac : ℕ := bits % 2 ^ 52
  if expo = 2047 then (if frac = 0 then .inf (sign = 1) else .nan)
  else
    let mag : ℚ := if expo = 0 then (frac : ℚ) / 2 ^ 1074 else ((2 ^ 52 + frac : ℚ) * 2 ^ expo) / 2 ^ 1075
    .fin (if sign = 1 then -mag else mag)

/-- Node `Buffer.readFloatLE`. -/
def readFloatLE (m : Mem) (off : Int) : FVal :=
  decodeF32 (readUInt32LE m off)

/-- Node `Buffer.readDoubleLE`. -/
def readDoubleLE (m : Mem) (off : Int) : FVal :=
  decodeF64 (readUInt32LE m off + 4294967296 * readUInt32LE m (off + 4))

/-- Node `buffer.indexOf(0)`: index of the first zero byte, if any. -/
def jsIndexOfZero : Mem → Option Nat
  | [] => none
  | b :: rest => if b = 0 then some 0 else (jsIndexOfZero rest).map (· + 1)

/-- The `indexOf(0)`-guarded truncation used by `getStringValue` and
`translateYamlData`: keep the bytes before the first zero byte, or the
whole buffer when no zero byte occurs. -/
def jsTruncateAtZero (buffer : Mem) : Mem :=
  match jsIndexOfZero buffer with
  | none => buffer
  | some nullIndex => buffer.take nullIndex

/-- Resolve one index argument of `Buffer.slice` against a region length
(negative indices count from the end, results are clamped to the region). -/
def jsSliceIdx (len : Nat) (i : Int) : Nat :=
  if i < 0 then ((len : Int) + i).toNat else min i.toNat len

/-- Node `buffer.slice(a, b)`: the bytes of the resolved half-open range. -/
def memExtract (m : Mem) (a b : Int) : Mem :=
  (m.take (jsSliceIdx m.length b)).drop (jsSliceIdx m.length a)

/-- The `IRSDKStruct.getStringValue` helper: slice `maxLength` bytes at the
absolute offset, truncate at the first zero byte, decode as latin1 (one
byte becomes one code point). -/
def getStringValue (m : Mem) (absoluteOffset : Int) (maxLength : Nat) : String :=
  let buffer := memExtract m absoluteOffset (absoluteOffset + maxLength)
  let actualBuffer := jsTruncateAtZero buffer
  String.mk (actualBuffer.map Char.ofNat)

/-- A decoded telemetry scalar, mirroring the value kinds produced by the
`unpackSingleValue` switch (JS has a single number type; the embedding keeps
the exact kind produced by each branch). -/
inductive IRValue where
  | intV : ℤ → IRValue
  | natV : ℕ → IRValue
  | floatV : FVal → IRValue
  | boolV : Bool → IRValue
deriving DecidableEq

/-- Result of `unpackValues`: a scalar for element count 1, otherwise an
ordered sequence of scalars. -/
inductive UnpackResult where
  | scalar : IRValue → UnpackResult
  | arr : List IRValue → UnpackResult
deriving DecidableEq

/-- Observable outcome of a JS method call: returned `null`, returned a
value, or threw an exception (e.g. a property access on `undefined`). -/
inductive JSResult (α : Type) where
  | nullv : JSResult α
  | value : α → JSResult α
  | thrown : JSResult α
deriving DecidableEq

/-- The `VAR_TYPE_MAP` constant from `constants.ts`. -/
def VAR_TYPE_MAP : List Char := ['c', '?', 'i', 'I', 'f', 'd']

/-- JS `VAR_TYPE_MAP[t]`: `none` models `undefined` for an out-of-range index. -/
def varTypeChar (t : Int) : Option Char :=
  if t < 0 then none else VAR_TYPE_MAP.get? t.toNat

/-- The `YAML_TRANSLATER` byte-substitution table from `constants.ts`. -/
def YAML_TRANSLATER : List (Nat × Nat) :=
  [(0x81, 0x20), (0x8d, 0x20), (0x8f, 0x20), (0x90, 0x20), (0x9d, 0x20)]

/-- The `Header` struct view from `structs.ts` (a region plus a base offset;
`new Header(mem)` uses base offset 0). -/
structure Header where
  _sharedMem : Mem
  _offset : Int
deriving DecidableEq

def Header.version (h : Header) : Int := readInt32LE h._sharedMem (h._offset + 0)

def Header.status (h : Header) : Int := readInt32LE h._sharedMem (h._offset + 4)

def Header.tickRate (h : Header) : Int := readInt32LE h._sharedMem (h._offset + 8)

def Header.sessionInfoUpdate (h : Header) : Int := readInt32LE h._sharedMem (h._offset + 12)

def Header.sessionInfoLen (h : Header) : Int := readInt32LE h._sharedMem (h._offset + 16)

def Header.sessionInfoOffset (h : Header) : Int := readInt32LE h._sharedMem (h._offset + 20)

def Header.numVars (h : Header) : Int := readInt32LE h._sharedMem (h._offset + 24)

def Header.varHeaderOffset (h : Header) : Int := readInt32LE h._sharedMem (h._offset + 28)

def Header.numBuf (h : Header) : Int := readInt32LE h._sharedMem (h._offset + 32)

def Header.bufLen (h : Header) : Int := readInt32LE h._sharedMem (h._offset + 36)

/-- The `VarBuffer` struct view from `structs.ts`.  The shared region itself
is mutable JS heap state, so reads take the current region explicitly; a
`VarBuffer` value carries only its base offset, stride and freeze state.
Node `Buffer.slice` returns a view sharing the underlying memory (it does
not copy), so `_frozenMemory` is the resolved slice bounds into the region. -/
structure VarBuffer where
  _offset : Int
  _bufLen : Int
  _isFrozen : Bool
  _frozenMemory : Option (Nat × Nat)
deriving DecidableEq

def VarBuffer.tickCount (vb : VarBuffer) (region : Mem) : Int :=
  readInt32LE region (vb._offset + 0)

def VarBuffer._bufOffset (vb : VarBuffer) (region : Mem) : Int :=
  readInt32LE region (vb._offset + 4)

def VarBuffer.bufOffset (vb : VarBuffer) (region : Mem) : Int :=
  if vb._isFrozen then 0 else vb._bufOffset region

def VarBuffer.isMemoryFrozen (vb : VarBuffer) : Bool := vb._isFrozen

/-- `VarBuffer.freeze()`: `this._frozenMemory = this._sharedMem.slice(_bufOffset, _bufOffset + _bufLen)`.
The slice bounds are resolved against the region at call time; the bytes are
not copied (Node `slice` aliases the buffer's memory). -/
def VarBuffer.freeze (vb : VarBuffer) (region : Mem) : VarBuffer :=
  let s := vb._bufOffset region
  { vb with
      _frozenMemory := some (jsSliceIdx region.length s, jsSliceIdx region.length (s + vb._bufLen)),
      _isFrozen := true }

def VarBuffer.unfreeze (vb : VarBuffer) : VarBuffer :=
  { vb with _frozenMemory := none, _isFrozen := false }

/-- `VarBuffer.getMemory()`: the frozen view when frozen, else the live
region.  Because the frozen slice aliases the region, its bytes are read
from the current region contents. -/
def VarBuffer.getMemory (vb : VarBuffer) (region : Mem) : Mem :=
  match vb._isFrozen, vb._frozenMemory with
  | true, some (s, e) => (region.take e).drop s
  | _, _ => region

/-- `Header.varBuf`: one `VarBuffer` per rotating buffer, the i-th at byte
offset `48 + i * 16`, recomputed on each access. -/
def Header.varBuf (h : Header) : List VarBuffer :=
  (List.range h.numBuf.toNat).map fun i : Nat =>
    { _offset := 48 + (i : Int) * 16, _bufLen := h.bufLen,
      _isFrozen := false, _frozenMemory := none }

/-- The `VarHeader` struct view from `structs.ts`. -/
structure VarHeader where
  _sharedMem : Mem
  _offset : Int
deriving DecidableEq

def VarHeader.type (v : VarHeader) : Int := readInt32LE v._sharedMem (v._offset + 0)

def VarHeader.offset (v : VarHeader) : Int := readInt32LE v._sharedMem (v._offset + 4)

def VarHeader.count (v : VarHeader) : Int := readInt32LE v._sharedMem (v._offset + 8)

def VarHeader.countAsTime (v : VarHeader) : Bool := readUInt8 v._sharedMem (v._offset + 12) ≠ 0

def VarHeader.name (v : VarHeader) : String := getStringValue v._sharedMem (v._offset + 16) 32

def VarHeader.desc (v : VarHeader) : String := getStringValue v._sharedMem (v._offset + 48) 64

def VarHeader.unit (v : VarHeader) : String := getStringValue v._sharedMem (v._offset + 112) 32

/-- The `DiskSubHeader` struct view from `structs.ts`. -/
structure DiskSubHeader where
  _sharedMem : Mem
  _offset : Int
deriving DecidableEq

def DiskSubHeader.sessionStartDate (d : DiskSubHeader) : Int :=
  let lo := readInt32LE d._sharedMem (d._offset + 0)
  let hi := readInt32LE d._sharedMem (d._offset + 4)
  hi * 4294967296 + (lo % 4294967296 + 4294967296) % 4294967296

def DiskSubHeader.sessionStartTime (d : DiskSubHeader) : FVal :=
  readDoubleLE d._sharedMem (d._offset + 8)

def DiskSubHeader.sessionEndTime (d : DiskSubHeader) : FVal :=
  readDoubleLE d._sharedMem (d._offset + 16)

def DiskSubHeader.sessionLapCount (d : DiskSubHeader) : Int :=
  readInt32LE d._sharedMem (d._offset + 24)

def DiskSubHeader.sessionRecordCount (d : DiskSubHeader) : Int :=
  readInt32LE d._sharedMem (d._offset + 28)

/-- Mutable state of an `IBT` reader instance (`ibt.ts`).  The `Map` used
for `varHeadersDict` is modelled as an association list in which a later
`set` shadows an earlier binding of the same key. -/
structure IBTState where
  ibtFile : Option String
  sharedMem : Option Mem
  header : Option Header
  diskHeader : Option DiskSubHeader
  varHeaders : Option (List VarHeader)
  varHeadersDict : List (String × VarHeader)
  varHeadersNames : Option (List String)
deriving DecidableEq

/-- A freshly constructed `IBT` instance. -/
def IBT.initial : IBTState :=
  { ibtFile := none, sharedMem := none, header := none, diskHeader := none,
    varHeaders := none, varHeadersDict := [], varHeadersNames := none }

/-- `IBT.open(path)` (the file's bytes are passed explicitly): stores the
stream handle and the file data, and builds the two header views. -/
def IBT.openFile (s : IBTState) (ibtFilePath : String) (fileData : Mem) : IBTState :=
  { s with
      ibtFile := some ibtFilePath,
      sharedMem := some fileData,
      header := some ⟨fileData, 0⟩,
      diskHeader := some ⟨fileData, 112⟩ }

/-- `IBT.close()`: destroys the stream and nulls out every piece of state. -/
def IBT.close (_s : IBTState) : IBTState :=
  { ibtFile := none, sharedMem := none, header := none, diskHeader := none,
    varHeaders := none, varHeadersDict := [], varHeadersNames := none }

/-- The `fileName` getter: the open stream's path, or `null`. -/
def IBT.fileName (s : IBTState) : Option String := s.ibtFile

/-- `IBT.getTypeSize` (private). -/
def IBT.getTypeSize (typeChar : Option Char) : Int :=
  match typeChar with
  | some 'i' => 4
  | some 'I' => 4
  | some 'f' => 4
  | some 'd' => 8
  | some '?' => 1
  | some 'c' => 1
  | _ => 0

/-- `IBT.unpackSingleValue` (private): decode one scalar at an offset. -/
def IBT.unpackSingleValue (sharedMem : Mem) (offset : Int) (typeChar : Option Char) : IRValue :=
  match typeChar with
  | some 'i' => .intV (readInt32LE sharedMem offset)
  | some 'I' => .natV (readUInt32LE sharedMem offset)
  | some 'f' => .floatV (readFloatLE sharedMem offset)
  | some 'd' => .floatV (readDoubleLE sharedMem offset)
  | some '?' => .boolV (readUInt8 sharedMem offset ≠ 0)
  | some 'c' => .natV (readUInt8 sharedMem offset)
  | _ => .intV 0

/-- `IBT.unpackValues` (private): one scalar for count 1, otherwise `count`
scalars at stride `getTypeSize typeChar`. -/
def IBT.unpackValues (sharedMem : Mem) (offset : Int) (typeChar : Option Char) (count : Int) : UnpackResult :=
  if count = 1 then
    .scalar (IBT.unpackSingleValue sharedMem offset typeChar)
  else
    .arr ((List.range count.toNat).map fun i : Nat =>
      IBT.unpackSingleValue sharedMem (offset + (i : Int) * IBT.getTypeSize typeChar) typeChar)

/-- `IBT.getVarHeaders` (private): builds the descriptor list and the name
dictionary on first call (memoized), reading the i-th record at
`varHeaderOffset + i * 144`.  Returns the updated state with the result. -/
def IBT.getVarHeaders (s : IBTState) : IBTState × List VarHeader :=
  match s.varHeaders with
  | some hs => (s, hs)
  | none =>
    match s.header, s.sharedMem with
    | some header, some sharedMem =>
      let hs := (List.range header.numVars.toNat).map fun i : Nat =>
        (⟨sharedMem, header.varHeaderOffset + (i : Int) * 144⟩ : VarHeader)
      ({ s with
          varHeaders := some hs,
          varHeadersDict := (hs.map fun h => (h.name, h)).reverse }, hs)
    | _, _ => (s, [])

/-- The `varHeadersNamesList` getter: `null` before open, else the memoized
list of descriptor names (building the descriptor table on first use). -/
def IBT.varHeadersNamesList (s : IBTState) : IBTState × Option (List String) :=
  match s.header with
  | none => (s, none)
  | some _ =>
    match s.varHeadersNames with
    | some names => (s, some names)
    | none =>
      let p := IBT.getVarHeaders s
      let names := p.2.map VarHeader.name
      ({ p.1 with varHeadersNames := some names }, some names)

/-- `IBT.get(index, key)`: value of variable `key` at record `index`.  The
`thrown` outcome models the `TypeError` raised by `varBuf[0]._bufOffset`
when the header declares no rotating buffers. -/
def IBT.get (s : IBTState) (index : Int) (key : String) : JSResult UnpackResult :=
  match s.header, s.diskHeader, s.sharedMem with
  | some header, some diskHeader, some sharedMem =>
    if index < 0 ∨ diskHeader.sessionRecordCount ≤ index then .nullv
    else
      match s.varHeadersDict.lookup key with
      | none => .nullv
      | some varHeader =>
        match header.varBuf with
        | [] => .thrown
        | vb0 :: _ =>
          let typeChar := varTypeChar varHeader.type
          let varOffset := varHeader.offset + vb0._bufOffset header._sharedMem + index * header.bufLen
          .value (IBT.unpackValues sharedMem varOffset typeChar varHeader.count)
  | _, _, _ => .nullv

/-- `IBT.getAll(key)`: values of variable `key` for every record index in
increasing order. -/
def IBT.getAll (s : IBTState) (key : String) : JSResult (List UnpackResult) :=
  match s.header, s.diskHeader, s.sharedMem with
  | some header, some diskHeader, some sharedMem =>
    match s.varHeadersDict.lookup key with
    | none => .nullv
    | some varHeader =>
      match header.varBuf with
      | [] => .thrown
      | vb0 :: _ =>
        let typeChar := varTypeChar varHeader.type
        let bufLen := header.bufLen
        let varOffset := varHeader.offset + vb0._bufOffset header._sharedMem
        .value ((List.range diskHeader.sessionRecordCount.toNat).map fun i : Nat =>
          IBT.unpackValues sharedMem (varOffset + (i : Int) * bufLen) typeChar varHeader.count)
  | _, _, _ => .nullv

/-- UTF-8 encoding of one character. -/
def utf8EncodeChar (c : Char) : List Nat :=
  let n := c.toNat
  if n < 0x80 then [n]
  else if n < 0x800 then [0xC0 + n / 0x40, 0x80 + n % 0x40]
  else if n < 0x10000 then
    [0xE0 + n / 0x1000, 0x80 + n / 0x40 % 0x40, 0x80 + n % 0x40]
  else
    [0xF0 + n / 0x40000, 0x80 + n / 0x1000 % 0x40, 0x80 + n / 0x40 % 0x40, 0x80 + n % 0x40]

/-- `Buffer.from(s, 'utf-8')`: the UTF-8 bytes of a string. -/
def utf8Encode (s : String) : Mem :=
  s.data.foldr (fun c acc => utf8EncodeChar c ++ acc) []

/-- The inner comparison loop of `extractYamlSection`: does `pat` occur in
`mem` starting at byte `i`?  A JS read past the end of the buffer yields
`undefined`, which never equals a pattern byte, so out-of-range positions
never match. -/
def bufMatchAt (mem pat : Mem) (i : Nat) : Bool :=
  (List.range pat.length).all fun j =>
    match mem.get? (i + j) with
    | some b => b == pat.getD j 0
    | none => false

/-- `extractYamlSection(sharedMem, offset, len, sectionName)` from
`utils.ts`: search `[offset, offset+len)` for the byte pattern
`"\n" ++ sectionName ++ ":\n"`; if found at `i`, return the slice from
`i + 1` (just past the leading newline) up to the first `"\n\n"` found
strictly after (or up to the block end). -/
def extractYamlSection (sharedMem : Mem) (offset len : Nat) (sectionName : String) : Option Mem :=
  let start := offset
  let endPos := start + len
  let searchBuffer := utf8Encode ("\n" ++ sectionName ++ ":\n")
  match (List.range' start (endPos - searchBuffer.length - start)).find?
      (fun i => bufMatchAt sharedMem searchBuffer i) with
  | none => none
  | some i =>
    let matchStart := i + 1
    let endBuffer : Mem := [10, 10]
    let matchEnd :=
      ((List.range' (matchStart + 1) (endPos - endBuffer.length - (matchStart + 1))).find?
        (fun i => bufMatchAt sharedMem endBuffer i)).getD endPos
    some ((sharedMem.take matchEnd).drop matchStart)

/-- `translateYamlData(data)` from `utils.ts`: apply the `YAML_TRANSLATER`
byte substitutions, truncate at the first zero byte, decode as latin1
(one byte becomes one code point). -/
def translateYamlData (data : Mem) : String :=
  let buffer := YAML_TRANSLATER.foldl
    (fun (buf : Mem) ft => buf.map fun b => if b = ft.1 then ft.2 else b) data
  let buffer := jsTruncateAtZero buffer
  String.mk (buffer.map Char.ofNat)

/-- Specification-level description of the `YAML_TRANSLATER` substitution:
each of the five listed bytes becomes a space, every other byte is kept. -/
def yamlByteSubst (b : Nat) : Nat :=
  if b = 0x81 ∨ b = 0x8d ∨ b = 0x8f ∨ b = 0x90 ∨ b = 0x9d then 0x20 else b

/-- First replace of `parseIRSDKYaml`: strip the control characters matched
by the character class in the source regex. -/
def stripNonPrintable (s : String) : String :=
  String.mk (s.data.filter fun c =>
    !(decide (c.toNat ≤ 0x08) || c.toNat == 0x0B || c.toNat == 0x0C ||
      (decide (0x0E ≤ c.toNat) && decide (c.toNat ≤ 0x1F)) || c.toNat == 0x7F))

/-- The field names whose values are force-quoted by `parseIRSDKYaml`. -/
def quoteDriverNameKeys : List String :=
  ["DriverSetupName", "UserName", "TeamName", "AbbrevName", "Initials"]

/-- Escaping applied to a force-quoted value: backslash-escape quote,
backslash and newline characters. -/
def escapeQuoted (v : List Char) : List Char :=
  v.foldr (fun c acc => if c = '"' ∨ c = '\\' ∨ c = '\n' then '\\' :: c :: acc else c :: acc) []

/-- Leftmost occurrence of a driver-name key followed by `": "` in a line
(the five keys start with distinct letters, so at most one matches at any
position); returns the position and the length of the matched prefix. -/
def findDriverKeyMatch (cs : List Char) : Option (Nat × Nat) :=
  (List.range cs.length).findSome? fun p =>
    quoteDriverNameKeys.findSome? fun k =>
      if List.isPrefixOf (k.data ++ [':', ' ']) (cs.drop p) then
        some (p, k.length + 2)
      else none

/-- One line of the driver-name force-quoting replace: wrap the rest of the
line after the matched `Key: ` prefix in escaped double quotes. -/
def quoteDriverLine (line : String) : String :=
  match findDriverKeyMatch line.data with
  | none => line
  | some (p, plen) =>
    let cs := line.data
    String.mk (cs.take (p + plen) ++ '"' :: (escapeQuoted (cs.drop (p + plen)) ++ ['"']))

/-- Second replace of `parseIRSDKYaml` (`/((?:DriverSetupName|UserName|TeamName|AbbrevName|Initials): )(.*)/g`),
which acts once per line since `.*` runs to the line end. -/
def quoteDriverNames (s : String) : String :=
  String.intercalate "\n" ((s.splitOn "\n").map quoteDriverLine)

/-- Word characters of the regex `\w`. -/
def isWordChar (c : Char) : Bool :=
  ('a' ≤ c && c ≤ 'z') || ('A' ≤ c && c ≤ 'Z') || ('0' ≤ c && c ≤ '9') || c == '_'

/-- Match of `\w+: ,` starting at position `p`: the maximal word run from
`p` (nonempty) must be followed by `": "` and a comma; returns the length
of the word run. -/
def commaMatchLen (cs : List Char) (p : Nat) : Option Nat :=
  let run := ((cs.drop p).takeWhile isWordChar).length
  if 1 ≤ run ∧ List.isPrefixOf [':', ' ', ','] (cs.drop (p + run)) then some run else none

/-- One line of the comma-value force-quoting replace: wrap the
comma-initial value (up to line end) in double quotes. -/
def quoteCommaLine (line : String) : String :=
  let cs := line.data
  match (List.range cs.length).findSome? (fun p => (commaMatchLen cs p).map fun run => (p, run)) with
  | none => line
  | some (p, run) =>
    String.mk (cs.take (p + run + 2) ++ '"' :: (cs.drop (p + run + 2) ++ ['"']))

/-- Third replace of `parseIRSDKYaml` (`/(\w+: )(,.*)/g`), acting once per
line since `.*` runs to the line end. -/
def quoteCommaValues (s : String) : String :=
  String.intercalate "\n" ((s.splitOn "\n").map quoteCommaLine)

/-- The textual cleanup pipeline of `parseIRSDKYaml` before `yaml.load`. -/
def cleanIRSDKYaml (yamlStr : String) : String :=
  quoteCommaValues (quoteDriverNames (stripNonPrintable yamlStr))

/-- `parseIRSDKYaml(yamlStr)` from `utils.ts`.  The external `yaml.load` is
a parameter returning either a parsed value or a thrown error; the `try`/
`catch` of the source turns a thrown error into `null`. -/
def parseIRSDKYaml {α : Type} (yamlLoad : String → Except String α) (yamlStr : String) : Option α :=
  match yamlLoad (cleanIRSDKYaml yamlStr) with
  | .ok result => some result
  | .error _ => none

/-- `IRSDK.unpackValue` (private, `irsdk.ts`): the same decoding switch as
the replay reader's `unpackSingleValue`, over an explicit buffer. -/
def IRSDK.unpackValue (buffer : Mem) (offset : Int) (typeChar : Option Char) : IRValue :=
  match typeChar with
  | some 'i' => .intV (readInt32LE buffer offset)
  | some 'I' => .natV (readUInt32LE buffer offset)
  | some 'f' => .floatV (readFloatLE buffer offset)
  | some 'd' => .floatV (readDoubleLE buffer offset)
  | some '?' => .boolV (readUInt8 buffer offset ≠ 0)
  | some 'c' => .natV (readUInt8 buffer offset)
  | _ => .intV 0

/-- `IRSDK.getTypeSize` (private, `irsdk.ts`): same switch as the replay
reader's `getTypeSize`. -/
def IRSDK.getTypeSize (typeChar : Option Char) : Int :=
  match typeChar with
  | some 'i' => 4
  | some 'I' => 4
  | some 'f' => 4
  | some 'd' => 8
  | some '?' => 1
  | some 'c' => 1
  | _ => 0

/-- `[...this.header.varBuf].sort((a, b) => b.tickCount - a.tickCount)`
from `irsdk.ts`: the rotating buffers sorted by descending tick counter.
JS `Array.sort` is stable; a stable insertion sort models it, and on the
distinct tick counters the theorems consider, every correct sort for this
comparator produces the same list. -/
def sortVarBufDesc (region : Mem) (bufs : List VarBuffer) : List VarBuffer :=
  List.insertionSort (fun a b => VarBuffer.tickCount b region ≤ VarBuffer.tickCount a region) bufs

/-- `IRSDK.getVarBufferLatest()` (private, `irsdk.ts`): the memoized frozen
buffer when one is set; `null` without a header; otherwise the second most
recent rotating buffer — `sorted[1]` of the descending tick sort — "to
avoid partially updated buffers", falling back to `sorted[0]` when fewer
than two buffers exist (`undefined` for an empty list is `none`). -/
def IRSDK.getVarBufferLatest (varBufferLatest : Option VarBuffer) (header : Option Header) : Option VarBuffer :=
  match varBufferLatest with
  | some vb => some vb
  | none =>
    match header with
    | none => none
    | some header =>
      let sorted := sortVarBufDesc header._sharedMem header.varBuf
      if 1 < sorted.length then sorted.get? 1 else sorted.get? 0

/-- `IRSDK.get(key)` from `irsdk.ts`, its telemetry-variable branch: the
guard on `isInitialized`/`header`, the dictionary lookup, the buffer
selection via `getVarBufferLatest()`, and the decode of
`varBufLatest.getMemory()` at `varBufLatest.bufOffset + varHeader.offset`
(one scalar for count 1, otherwise an array at stride `getTypeSize`).
When the key is not a telemetry variable the source falls through to the
session-info cache (`getSessionInfo`), which no claim exercises; that
branch is modelled as an absent result.  `undefined` is `none`. -/
def IRSDK.get (isInitialized : Bool) (header : Option Header) (varBufferLatest : Option VarBuffer)
    (varHeadersDict : List (String × VarHeader)) (key : String) : Option UnpackResult :=
  match isInitialized, header with
  | true, some header =>
    match varHeadersDict.lookup key with
    | some varHeader =>
      match IRSDK.getVarBufferLatest varBufferLatest (some header) with
      | none => none
      | some varBufLatest =>
        let memory := varBufLatest.getMemory header._sharedMem
        let offset := varBufLatest.bufOffset header._sharedMem + varHeader.offset
        let typeChar := varTypeChar varHeader.type
        if varHeader.count = 1 then
          some (.scalar (IRSDK.unpackValue memory offset typeChar))
        else
          some (.arr ((List.range varHeader.count.toNat).map fun i : Nat =>
            IRSDK.unpackValue memory (offset + (i : Int) * IRSDK.getTypeSize typeChar) typeChar))
    | none => none
  | _, _ => none

/-- Little-endian bytes of a 32-bit integer, for building sample regions. -/
def i32le (n : Int) : Mem :=
  let u := (n % 4294967296).toNat
  [u % 256, u / 256 % 256, u / 65536 % 256, u / 16777216 % 256]

/-- A concrete 292-byte IBT replay file: one variable `Speed` (float32,
offset 0, count 1), one rotating buffer whose data starts at byte 288,
`bufLen = 4`, `sessionRecordCount = 1`, and a single record holding the
float32 value 10.0. -/
def sampleIbtMem : Mem :=
  i32le 1 ++ i32le 1 ++ i32le 60 ++ i32le 0 ++ i32le 0 ++ i32le 0 ++
  i32le 1 ++ i32le 144 ++ i32le 1 ++ i32le 4 ++
  List.replicate 8 0 ++
  i32le 1 ++ i32le 288 ++ List.replicate 8 0 ++
  List.replicate 48 0 ++
  List.replicate 28 0 ++ i32le 1 ++
  i32le 4 ++ i32le 0 ++ i32le 1 ++ i32le 0 ++
  ([83, 112, 101, 101, 100] ++ List.replicate 27 0) ++
  List.replicate 96 0 ++
  [0, 0, 32, 65]

/-- A concrete 416-byte live region for the end-to-end selection scenario:
two rotating buffers (`numBuffers = 2`, `bufLen = 64`), buffer 0 with
tick 5 and data offset 288 holding float32 10.0, buffer 1 with tick 6 and
data offset 352 holding float32 12.0 ("still being written"), and one
variable `Speed` (float32, offset 0, count 1) described at byte 144. -/
def sampleLiveMem : Mem :=
  i32le 1 ++ i32le 1 ++ i32le 60 ++ i32le 0 ++ i32le 0 ++ i32le 0 ++
  i32le 1 ++ i32le 144 ++ i32le 2 ++ i32le 64 ++
  List.replicate 8 0 ++
  i32le 5 ++ i32le 288 ++ List.replicate 8 0 ++
  i32le 6 ++ i32le 352 ++ List.replicate 8 0 ++
  List.replicate 64 0 ++
  i32le 4 ++ i32le 0 ++ i32le 1 ++ i32le 0 ++
  ([83, 112, 101, 101, 100] ++ List.replicate 27 0) ++
  List.replicate 96 0 ++
  ([0, 0, 32, 65] ++ List.replicate 60 0) ++
  ([0, 0, 64, 65] ++ List.replicate 60 0)

/-- The session-text block of the end-to-end extraction scenario. -/
def roadAtlantaBlock : Mem :=
  utf8Encode "\nWeekendInfo:\n  TrackDisplayName: Road Atlanta\n\n\nSessionInfo:\n  SessionType: Race\n\n"

/-! Helper lemmas shared by the claim theorems. -/

/-- The zero-byte truncation is the longest prefix of nonzero bytes. -/
theorem jsTruncateAtZero_eq_takeWhile (l : Mem) :
    jsTruncateAtZero l = l.takeWhile (fun b => b != 0) := by
  induction l with
  | nil => rfl
  | cons b rest ih =>
    by_cases hb : b = 0
    · subst hb
      simp [jsTruncateAtZero, jsIndexOfZero]
    · rw [jsTruncateAtZero] at ih ⊢
      simp only [jsIndexOfZero, if_neg hb]
      cases h : jsIndexOfZero rest with
      | none =>
        rw [h] at ih
        simp only [Option.map_none']
        simpa [List.takeWhile_cons, hb] using ih
      | some i =>
        rw [h] at ih
        simp only [Option.map_some']
        simpa [List.takeWhile_cons, hb, List.take_succ_cons] using ih

/-- A nat below 256 round-trips through `Char.ofNat`. -/
theorem charOfNat_toNat_of_lt {b : Nat} (hb : b < 256) : (Char.ofNat b).toNat = b := by
  have hv : b.isValidChar := Or.inl (by omega)
  simp [Char.ofNat, dif_pos hv, Char.ofNatAux, Char.toNat, UInt32.toNat, BitVec.toNat_ofNatLt]

/-- The float32 bit pattern 0x41200000 decodes to 10. -/
theorem decodeF32_ten : decodeF32 1092616192 = .fin 10 := by
  norm_num [decodeF32]

/-- The float64 bit pattern 0x4024000000000000 decodes to 10. -/
theorem decodeF64_ten : decodeF64 4621819117588971520 = .fin 10 := by
  norm_num [decodeF64]

/-! Claim theorems. -/

/-- C1: on a freshly opened 292-byte replay file whose descriptor table
contains exactly the variable `Speed` and whose `sessionRecordCount` is 1,
`get(0, "Speed")` — an in-range index and a name present in the file's
descriptor table — returns `null` instead of the decoded value, because the
name dictionary consulted by `get` is only populated by the private
`getVarHeaders`, which is invoked solely from the `varHeadersNamesList`
getter; after that getter materializes the table, the very same call
returns the decoded float32 value 10. -/
theorem c1_get_after_open_returns_null :
    ((IBT.getVarHeaders (IBT.openFile IBT.initial "telemetry.ibt" sampleIbtMem)).2.map VarHeader.name
      = ["Speed"]) ∧
    ((IBT.openFile IBT.initial "telemetry.ibt" sampleIbtMem).diskHeader = some ⟨sampleIbtMem, 112⟩) ∧
    (DiskSubHeader.sessionRecordCount ⟨sampleIbtMem, 112⟩ = 1) ∧
    (IBT.get (IBT.openFile IBT.initial "telemetry.ibt" sampleIbtMem) 0 "Speed" = .nullv) ∧
    (IBT.get (IBT.varHeadersNamesList (IBT.openFile IBT.initial "telemetry.ibt" sampleIbtMem)).1 0 "Speed"
      = .value (.scalar (.floatV (.fin 10)))) := by
  refine ⟨by decide, rfl, by decide, by decide, ?_⟩
  have hfin : readFloatLE sampleIbtMem 288 = .fin 10 := by
    have hu : readUInt32LE sampleIbtMem 288 = 1092616192 := by decide
    rw [readFloatLE, hu, decodeF32_ten]
  have hget : IBT.get (IBT.varHeadersNamesList (IBT.openFile IBT.initial "telemetry.ibt" sampleIbtMem)).1 0 "Speed"
      = .value (.scalar (.floatV (readFloatLE sampleIbtMem 288))) := by rfl
  rw [hget, hfin]

/-- C2 counterexample: on the spec's own end-to-end block, the extracted
`WeekendInfo` section is not the claimed bytes
`"  TrackDisplayName: Road Atlanta\n"` (the code keeps the section-name
header line and drops the content's trailing newline). -/
theorem c2_section_bytes_counterexample :
    extractYamlSection roadAtlantaBlock 0 roadAtlantaBlock.length "WeekendInfo" ≠
      some (utf8Encode "  TrackDisplayName: Road Atlanta\n") := by
  decide

/-- C2 amended: `extractYamlSection` returns the bytes starting just after
the leading newline of the matched header pattern — thus including the
`"SectionName:\n"` header line itself — up to but excluding the first
newline pair `"\n\n"` found after it (or up to the block end); on the
end-to-end block the `WeekendInfo` result is exactly the bytes
`"WeekendInfo:\n  TrackDisplayName: Road Atlanta"`; and when the header
pattern occurs nowhere, the result is absent. -/
theorem c2_section_extraction_amended :
    (extractYamlSection roadAtlantaBlock 0 roadAtlantaBlock.length "WeekendInfo" =
      some (utf8Encode "WeekendInfo:\n  TrackDisplayName: Road Atlanta")) ∧
    (∀ (mem : Mem) (offset len : Nat) (sectionName : String),
      (∀ i, bufMatchAt mem (utf8Encode ("\n" ++ sectionName ++ ":\n")) i = false) →
      extractYamlSection mem offset len sectionName = none) := by
  refine ⟨by decide, ?_⟩
  intro mem offset len sectionName hno
  have hfind :
      (List.range' offset (offset + len - (utf8Encode ("\n" ++ sectionName ++ ":\n")).length - offset)).find?
        (fun i => bufMatchAt mem (utf8Encode ("\n" ++ sectionName ++ ":\n")) i) = none := by
    rw [List.find?_eq_none]
    intro x _
    simp [hno x]
  simp only [extractYamlSection, hfind]

/-- C2 amended, witness: a two-byte region containing no header pattern for
section `X` yields an absent result. -/
theorem c2_section_extraction_amended_witness :
    extractYamlSection [65, 65] 0 2 "X" = none :=
  c2_section_extraction_amended.2 [65, 65] 0 2 "X" fun i =>
    match i with
    | 0 => rfl
    | 1 => rfl
    | _ + 2 => rfl

/-- C3: `freeze()` stores a Node `Buffer.slice`, which aliases the shared
region instead of copying it.  Freezing a buffer whose data range
`[8, 12)` holds `[1, 2, 3, 4]` and then overwriting byte 8 with 99 changes
the bytes returned by the frozen buffer's `getMemory()`, contradicting the
claimed independently owned snapshot. -/
theorem c3_frozen_memory_aliases_region :
    ((VarBuffer.freeze ⟨0, 4, false, none⟩ [1, 0, 0, 0, 8, 0, 0, 0, 1, 2, 3, 4]).isMemoryFrozen = true) ∧
    ((VarBuffer.freeze ⟨0, 4, false, none⟩ [1, 0, 0, 0, 8, 0, 0, 0, 1, 2, 3, 4]).getMemory
        [1, 0, 0, 0, 8, 0, 0, 0, 1, 2, 3, 4] = [1, 2, 3, 4]) ∧
    ((VarBuffer.freeze ⟨0, 4, false, none⟩ [1, 0, 0, 0, 8, 0, 0, 0, 1, 2, 3, 4]).getMemory
        [1, 0, 0, 0, 8, 0, 0, 0, 99, 2, 3, 4] = [99, 2, 3, 4]) ∧
    ((VarBuffer.freeze ⟨0, 4, false, none⟩ [1, 0, 0, 0, 8, 0, 0, 0, 1, 2, 3, 4]).getMemory
        [1, 0, 0, 0, 8, 0, 0, 0, 99, 2, 3, 4] ≠
      (VarBuffer.freeze ⟨0, 4, false, none⟩ [1, 0, 0, 0, 8, 0, 0, 0, 1, 2, 3, 4]).getMemory
        [1, 0, 0, 0, 8, 0, 0, 0, 1, 2, 3, 4]) := by
  decide

/-- C10: after `close()`, `get` and `getAll` return `null` for every index
and key, `fileName` and `varHeadersNamesList` return `null`, and the
reader's state equals the freshly constructed state (header, disk
sub-header, backing memory, descriptor list, name dictionary and name list
all cleared). -/
theorem c10_close_resets_reader (s : IBTState) (index : Int) (key : String) :
    IBT.get (IBT.close s) index key = .nullv ∧
    IBT.getAll (IBT.close s) key = .nullv ∧
    IBT.fileName (IBT.close s) = none ∧
    (IBT.varHeadersNamesList (IBT.close s)).2 = none ∧
    IBT.close s = IBT.initial :=
  ⟨rfl, rfl, rfl, rfl, rfl⟩

/-- C6: the value codec's type sizes are 1 for char/bool, 4 for
int32/uint32/float32 and 8 for float64; element count 1 yields a scalar
(not a one-element sequence); element count `n > 1` yields the ordered
sequence of `n` values, the i-th decoded at `offset + i * typeSize`; and
each scalar decoder is little-endian on multi-byte numerics, as evaluated
on concrete byte patterns for all six type tags. -/
theorem c6_value_codec :
    (IBT.getTypeSize (some 'c') = 1 ∧ IBT.getTypeSize (some '?') = 1 ∧
     IBT.getTypeSize (some 'i') = 4 ∧ IBT.getTypeSize (some 'I') = 4 ∧
     IBT.getTypeSize (some 'f') = 4 ∧ IBT.getTypeSize (some 'd') = 8) ∧
    (∀ (sharedMem : Mem) (offset : Int) (typeChar : Option Char),
      IBT.unpackValues sharedMem offset typeChar 1 =
        .scalar (IBT.unpackSingleValue sharedMem offset typeChar)) ∧
    (∀ (sharedMem : Mem) (offset : Int) (typeChar : Option Char) (count : Int), 1 < count →
      IBT.unpackValues sharedMem offset typeChar count =
        .arr ((List.range count.toNat).map fun i : Nat =>
          IBT.unpackSingleValue sharedMem (offset + (i : Int) * IBT.getTypeSize typeChar) typeChar) ∧
      ((List.range count.toNat).map fun i : Nat =>
        IBT.unpackSingleValue sharedMem (offset + (i : Int) * IBT.getTypeSize typeChar) typeChar).length
        = count.toNat) ∧
    (IBT.unpackSingleValue [0x78, 0x56, 0x34, 0x12] 0 (some 'I') = .natV 0x12345678) ∧
    (IBT.unpackSingleValue [255, 255, 255, 255] 0 (some 'i') = .intV (-1)) ∧
    (IBT.unpackSingleValue [0, 0, 32, 65] 0 (some 'f') = .floatV (.fin 10)) ∧
    (IBT.unpackSingleValue [0, 0, 0, 0, 0, 0, 0x24, 0x40] 0 (some 'd') = .floatV (.fin 10)) ∧
    (IBT.unpackSingleValue [7] 0 (some 'c') = .natV 7) ∧
    (IBT.unpackSingleValue [2] 0 (some '?') = .boolV true) ∧
    (IBT.unpackSingleValue [0] 0 (some '?') = .boolV false) := by
  refine ⟨by decide, fun m o tc => rfl, ?_, by decide, by decide, ?_, ?_,
    by decide, by decide, by decide⟩
  · intro sharedMem offset typeChar count hn
    constructor
    · rw [IBT.unpackValues, if_neg (by omega)]
    · rw [List.length_map, List.length_range]
  · have hu : readUInt32LE [0, 0, 32, 65] 0 = 1092616192 := by decide
    show IRValue.floatV (readFloatLE [0, 0, 32, 65] 0) = IRValue.floatV (.fin 10)
    rw [readFloatLE, hu, decodeF32_ten]
  · have hu : readUInt32LE [0, 0, 0, 0, 0, 0, 36, 64] 0 +
        4294967296 * readUInt32LE [0, 0, 0, 0, 0, 0, 36, 64] (0 + 4) = 4621819117588971520 := by
      decide
    show IRValue.floatV (readDoubleLE [0, 0, 0, 0, 0, 0, 36, 64] 0) = IRValue.floatV (.fin 10)
    rw [readDoubleLE, hu, decodeF64_ten]

/-- C6 witness: the array branch at a concrete three-element int32 read. -/
theorem c6_value_codec_witness :
    IBT.unpackValues [1, 0, 0, 0, 2, 0, 0, 0, 3, 0, 0, 0] 0 (some 'i') 3 =
      .arr ((List.range (3 : Int).toNat).map fun i : Nat =>
        IBT.unpackSingleValue [1, 0, 0, 0, 2, 0, 0, 0, 3, 0, 0, 0]
          ((0 : Int) + (i : Int) * IBT.getTypeSize (some 'i')) (some 'i')) ∧
    ((List.range (3 : Int).toNat).map fun i : Nat =>
      IBT.unpackSingleValue [1, 0, 0, 0, 2, 0, 0, 0, 3, 0, 0, 0]
        ((0 : Int) + (i : Int) * IBT.getTypeSize (some 'i')) (some 'i')).length = (3 : Int).toNat :=
  c6_value_codec.2.2.1 [1, 0, 0, 0, 2, 0, 0, 0, 3, 0, 0, 0] 0 (some 'i') 3 (by decide)

/-- C8: `parseIRSDKYaml` never propagates an error of the structured
parser: when the parse of the cleaned text fails, the result is `null`,
and when it succeeds the parsed value is returned. -/
theorem c8_parse_never_propagates (α : Type) (yamlLoad : String → Except String α) (yamlStr : String) :
    (∀ e, yamlLoad (cleanIRSDKYaml yamlStr) = .error e → parseIRSDKYaml yamlLoad yamlStr = none) ∧
    (∀ v, yamlLoad (cleanIRSDKYaml yamlStr) = .ok v → parseIRSDKYaml yamlLoad yamlStr = some v) := by
  constructor <;> intro x hx <;> simp [parseIRSDKYaml, hx]

/-- C8 witness: a parser that always fails makes `parseIRSDKYaml` return
`null` rather than propagate the error. -/
theorem c8_parse_never_propagates_witness :
    parseIRSDKYaml (fun _ => (Except.error "unexpected end of the stream" : Except String Nat))
      "WeekendInfo: 1" = none :=
  (c8_parse_never_propagates Nat (fun _ => .error "unexpected end of the stream")
    "WeekendInfo: 1").1 "unexpected end of the stream" rfl

/-- C9: the layout constants are fixed: `open` builds the header view at
base offset 0 and the disk sub-header view at fixed offset 112; the header
fields are little-endian int32 reads at byte offsets 0, 4, 8, ..., 36; the
i-th rotating-buffer descriptor is read at `48 + i * 16`; the descriptor
table reads exactly `numVariables` records, the i-th at
`varHeaderOffset + i * 144`; and the descriptor and disk sub-header fields
sit at their fixed relative offsets. -/
theorem c9_layout_offsets :
    (∀ (prev : IBTState) (path : String) (mem : Mem),
      (IBT.openFile prev path mem).header = some ⟨mem, 0⟩ ∧
      (IBT.openFile prev path mem).diskHeader = some ⟨mem, 112⟩) ∧
    (∀ mem : Mem,
      Header.version ⟨mem, 0⟩ = readInt32LE mem 0 ∧
      Header.status ⟨mem, 0⟩ = readInt32LE mem 4 ∧
      Header.tickRate ⟨mem, 0⟩ = readInt32LE mem 8 ∧
      Header.sessionInfoUpdate ⟨mem, 0⟩ = readInt32LE mem 12 ∧
      Header.sessionInfoLen ⟨mem, 0⟩ = readInt32LE mem 16 ∧
      Header.sessionInfoOffset ⟨mem, 0⟩ = readInt32LE mem 20 ∧
      Header.numVars ⟨mem, 0⟩ = readInt32LE mem 24 ∧
      Header.varHeaderOffset ⟨mem, 0⟩ = readInt32LE mem 28 ∧
      Header.numBuf ⟨mem, 0⟩ = readInt32LE mem 32 ∧
      Header.bufLen ⟨mem, 0⟩ = readInt32LE mem 36) ∧
    (∀ (h : Header) (i : Nat), i < h.numBuf.toNat →
      h.varBuf.get? i = some ⟨48 + (i : Int) * 16, h.bufLen, false, none⟩) ∧
    (∀ (s : IBTState) (header : Header) (sharedMem : Mem) (i : Nat),
      s.varHeaders = none → s.header = some header → s.sharedMem = some sharedMem →
      i < header.numVars.toNat →
      (IBT.getVarHeaders s).2.get? i = some ⟨sharedMem, header.varHeaderOffset + (i : Int) * 144⟩) ∧
    (∀ (mem : Mem) (o : Int),
      VarHeader.type ⟨mem, o⟩ = readInt32LE mem (o + 0) ∧
      VarHeader.offset ⟨mem, o⟩ = readInt32LE mem (o + 4) ∧
      VarHeader.count ⟨mem, o⟩ = readInt32LE mem (o + 8) ∧
      VarHeader.name ⟨mem, o⟩ = getStringValue mem (o + 16) 32) ∧
    (∀ (mem : Mem) (o : Int), DiskSubHeader.sessionRecordCount ⟨mem, o⟩ = readInt32LE mem (o + 28)) := by
  refine ⟨fun prev path mem => ⟨rfl, rfl⟩, fun mem => ⟨rfl, rfl, rfl, rfl, rfl, rfl, rfl, rfl, rfl, rfl⟩,
    ?_, ?_, fun mem o => ⟨rfl, rfl, rfl, rfl⟩, fun mem o => rfl⟩
  · intro h i hi
    rw [Header.varBuf, List.get?_map, List.get?_range hi, Option.map_some']
  · intro s header sharedMem i h1 h2 h3 hi
    simp only [IBT.getVarHeaders, h1, h2, h3]
    rw [List.get?_map, List.get?_range hi, Option.map_some']

/-- C9 witness: on the sample file the single rotating-buffer descriptor
sits at offset 48 and the single variable descriptor at the table base. -/
theorem c9_layout_offsets_witness :
    (Header.varBuf ⟨sampleIbtMem, 0⟩).get? 0 =
      some ⟨48 + ((0 : Nat) : Int) * 16, Header.bufLen ⟨sampleIbtMem, 0⟩, false, none⟩ :=
  c9_layout_offsets.2.2.1 ⟨sampleIbtMem, 0⟩ 0 (by decide)

/-- C4: over the actual `getVarBufferLatest()` of `irsdk.ts`: for every
header whose region declares at least two rotating buffers with pairwise
distinct tick counters, the unfrozen selection returns a buffer of the
list whose tick counter is strictly below the maximal one — never the
highest-tick buffer — and which dominates every buffer other than the
maximal one, i.e. the second-highest; when exactly one buffer exists, that
buffer is used; and on the concrete two-buffer region (buffer 0 tick 5
holding float32 10.0, buffer 1 tick 6 still being written), an unfrozen
`get("Speed")` returns 10. -/
theorem c4_second_highest_selection :
    (∀ header : Header, 2 ≤ header.varBuf.length →
      (header.varBuf.map fun vb => vb.tickCount header._sharedMem).Nodup →
      ∃ sel best,
        IRSDK.getVarBufferLatest none (some header) = some sel ∧
        sel ∈ header.varBuf ∧ best ∈ header.varBuf ∧
        sel.tickCount header._sharedMem < best.tickCount header._sharedMem ∧
        (∀ y ∈ header.varBuf, y.tickCount header._sharedMem ≤ best.tickCount header._sharedMem) ∧
        (∀ y ∈ header.varBuf, y ≠ best →
          y.tickCount header._sharedMem ≤ sel.tickCount header._sharedMem)) ∧
    (∀ (header : Header) (b : VarBuffer), header.varBuf = [b] →
      IRSDK.getVarBufferLatest none (some header) = some b) ∧
    (IRSDK.get true (some ⟨sampleLiveMem, 0⟩) none [("Speed", ⟨sampleLiveMem, 144⟩)] "Speed" =
      some (.scalar (.floatV (.fin 10)))) := by
  refine ⟨?_, ?_, ?_⟩
  · intro header h2 hnd
    haveI : IsTotal VarBuffer
        (fun a b => VarBuffer.tickCount b header._sharedMem ≤ VarBuffer.tickCount a header._sharedMem) :=
      ⟨fun a b => le_total _ _⟩
    haveI : IsTrans VarBuffer
        (fun a b => VarBuffer.tickCount b header._sharedMem ≤ VarBuffer.tickCount a header._sharedMem) :=
      ⟨fun _ _ _ hab hbc => le_trans hbc hab⟩
    have hperm : List.Perm (sortVarBufDesc header._sharedMem header.varBuf) header.varBuf :=
      List.perm_insertionSort _ _
    have hsorted : List.Sorted
        (fun a b => VarBuffer.tickCount b header._sharedMem ≤ VarBuffer.tickCount a header._sharedMem)
        (sortVarBufDesc header._sharedMem header.varBuf) := by
      unfold sortVarBufDesc
      exact List.sorted_insertionSort _ _
    have hlen : (sortVarBufDesc header._sharedMem header.varBuf).length = header.varBuf.length :=
      hperm.length_eq
    obtain ⟨best, sel, rest, hsrt⟩ :
        ∃ a b t, sortVarBufDesc header._sharedMem header.varBuf = a :: b :: t := by
      cases hs : sortVarBufDesc header._sharedMem header.varBuf with
      | nil => rw [hs] at hlen; simp at hlen; omega
      | cons a t1 =>
        cases t1 with
        | nil => rw [hs] at hlen; simp at hlen; omega
        | cons b t => exact ⟨a, b, t, rfl⟩
    have hresult : IRSDK.getVarBufferLatest none (some header) = some sel := by
      have hc : 1 < (best :: sel :: rest).length := by
        simp only [List.length_cons]
        omega
      simp only [IRSDK.getVarBufferLatest]
      rw [hsrt, if_pos hc]
      rfl
    have hmem : ∀ y : VarBuffer, y ∈ best :: sel :: rest ↔ y ∈ header.varBuf := by
      intro y
      rw [← hsrt]
      exact hperm.mem_iff
    have hbestmem : best ∈ header.varBuf := (hmem best).mp (List.mem_cons_self _ _)
    have hselmem : sel ∈ header.varBuf :=
      (hmem sel).mp (List.mem_cons_of_mem _ (List.mem_cons_self _ _))
    rw [hsrt] at hsorted
    obtain ⟨hbest_all, hsorted2⟩ := List.sorted_cons.mp hsorted
    obtain ⟨hsel_all, _⟩ := List.sorted_cons.mp hsorted2
    have hmax : ∀ y ∈ header.varBuf,
        y.tickCount header._sharedMem ≤ best.tickCount header._sharedMem := by
      intro y hy
      rcases List.mem_cons.mp ((hmem y).mpr hy) with rfl | hy'
      · exact le_refl _
      · exact hbest_all y hy'
    have hndsorted : ((best :: sel :: rest).map fun vb => vb.tickCount header._sharedMem).Nodup := by
      rw [← hsrt]
      exact ((hperm.map _).nodup_iff).mpr hnd
    have hne : sel.tickCount header._sharedMem ≠ best.tickCount header._sharedMem := by
      rw [List.map_cons, List.map_cons] at hndsorted
      obtain ⟨hnotmem, _⟩ := List.nodup_cons.mp hndsorted
      intro hEq
      refine hnotmem ?_
      rw [← hEq]
      exact List.mem_cons_self _ _
    have hlt : sel.tickCount header._sharedMem < best.tickCount header._sharedMem :=
      lt_of_le_of_ne (hbest_all sel (List.mem_cons_self _ _)) hne
    refine ⟨sel, best, hresult, hselmem, hbestmem, hlt, hmax, ?_⟩
    intro y hy hyne
    rcases List.mem_cons.mp ((hmem y).mpr hy) with rfl | hy'
    · exact absurd rfl hyne
    · rcases List.mem_cons.mp hy' with rfl | hy''
      · exact le_refl _
      · exact hsel_all y hy''
  · intro header b hb
    simp [IRSDK.getVarBufferLatest, sortVarBufDesc, hb]
  · have hfin : readFloatLE sampleLiveMem 288 = .fin 10 := by
      have hu : readUInt32LE sampleLiveMem 288 = 1092616192 := by decide
      rw [readFloatLE, hu, decodeF32_ten]
    have hget : IRSDK.get true (some ⟨sampleLiveMem, 0⟩) none [("Speed", ⟨sampleLiveMem, 144⟩)] "Speed"
        = some (.scalar (.floatV (readFloatLE sampleLiveMem 288))) := by rfl
    rw [hget, hfin]

/-- C4 witness: the general second-highest property instantiated at the
concrete two-buffer live region. -/
theorem c4_second_highest_selection_witness :
    ∃ sel best,
      IRSDK.getVarBufferLatest none (some ⟨sampleLiveMem, 0⟩) = some sel ∧
      sel ∈ Header.varBuf ⟨sampleLiveMem, 0⟩ ∧ best ∈ Header.varBuf ⟨sampleLiveMem, 0⟩ ∧
      VarBuffer.tickCount sel (Header._sharedMem ⟨sampleLiveMem, 0⟩) <
        VarBuffer.tickCount best (Header._sharedMem ⟨sampleLiveMem, 0⟩) ∧
      (∀ y ∈ Header.varBuf ⟨sampleLiveMem, 0⟩,
        VarBuffer.tickCount y (Header._sharedMem ⟨sampleLiveMem, 0⟩) ≤
          VarBuffer.tickCount best (Header._sharedMem ⟨sampleLiveMem, 0⟩)) ∧
      (∀ y ∈ Header.varBuf ⟨sampleLiveMem, 0⟩, y ≠ best →
        VarBuffer.tickCount y (Header._sharedMem ⟨sampleLiveMem, 0⟩) ≤
          VarBuffer.tickCount sel (Header._sharedMem ⟨sampleLiveMem, 0⟩)) :=
  c4_second_highest_selection.1 ⟨sampleLiveMem, 0⟩ (by decide) (by decide)

/-- C5: for an open reader state (header, disk sub-header and backing
memory present), a name bound in the descriptor dictionary, a non-negative
record count, and at least one rotating buffer, `getAll(key)` returns an
ordered sequence whose length equals `sessionRecordCount` and whose i-th
element is exactly the value `get(i, key)` returns — `getAll` is the bulk
equivalent of calling `get` for each index in increasing order. -/
theorem c5_getAll_refines_repeated_get
    (s : IBTState) (header : Header) (diskHeader : DiskSubHeader) (sharedMem : Mem)
    (varHeader : VarHeader) (key : String)
    (hh : s.header = some header) (hd : s.diskHeader = some diskHeader)
    (hm : s.sharedMem = some sharedMem)
    (hk : s.varHeadersDict.lookup key = some varHeader)
    (hrc : 0 ≤ diskHeader.sessionRecordCount)
    (hvb : header.varBuf ≠ []) :
    ∃ l, IBT.getAll s key = .value l ∧
      (l.length : Int) = diskHeader.sessionRecordCount ∧
      ∀ (i : Nat) (hi : i < l.length), IBT.get s (i : Int) key = .value (l.get ⟨i, hi⟩) := by
  obtain ⟨vb0, rest, hvb0⟩ := List.exists_cons_of_ne_nil hvb
  refine ⟨(List.range diskHeader.sessionRecordCount.toNat).map fun i : Nat =>
      IBT.unpackValues sharedMem
        (varHeader.offset + vb0._bufOffset header._sharedMem + (i : Int) * header.bufLen)
        (varTypeChar varHeader.type) varHeader.count, ?_, ?_, ?_⟩
  · simp only [IBT.getAll, hh, hd, hm, hk, hvb0]
  · rw [List.length_map, List.length_range, Int.toNat_of_nonneg hrc]
  · intro i hi
    have hi' : i < diskHeader.sessionRecordCount.toNat := by
      simpa using hi
    have hilt : (i : Int) < diskHeader.sessionRecordCount := by omega
    simp only [IBT.get, hh, hd, hm, hk, hvb0]
    rw [if_neg (by omega)]
    congr 1
    simp [List.get_eq_getElem, List.getElem_map, List.getElem_range]

/-- C5 witness: the equivalence instantiated on the sample file after the
descriptor table has been materialized. -/
theorem c5_getAll_refines_repeated_get_witness :
    ∃ l, IBT.getAll (IBT.varHeadersNamesList (IBT.openFile IBT.initial "telemetry.ibt" sampleIbtMem)).1
        "Speed" = .value l ∧
      (l.length : Int) = DiskSubHeader.sessionRecordCount ⟨sampleIbtMem, 112⟩ ∧
      ∀ (i : Nat) (hi : i < l.length),
        IBT.get (IBT.varHeadersNamesList (IBT.openFile IBT.initial "telemetry.ibt" sampleIbtMem)).1
          (i : Int) "Speed" = .value (l.get ⟨i, hi⟩) :=
  c5_getAll_refines_repeated_get _ ⟨sampleIbtMem, 0⟩ ⟨sampleIbtMem, 112⟩ sampleIbtMem
    ⟨sampleIbtMem, 144⟩ "Speed" rfl rfl rfl (by decide) (by decide) (by decide)

/-- C7: `translateYamlData` equals the specification-level pipeline: replace
every occurrence of each byte of the fixed substitution table
0x81/0x8d/0x8f/0x90/0x9d by a space, truncate at the first null byte, and
decode each remaining byte one-to-one as a single-byte code point (for
byte-valued input the code points of the result are exactly the remaining
bytes — never a multi-byte UTF-8 grouping). -/
theorem c7_translate_yaml_data (data : Mem) (hb : ∀ b ∈ data, b < 256) :
    translateYamlData data =
      String.mk (((data.map yamlByteSubst).takeWhile (fun b => b != 0)).map Char.ofNat) ∧
    (translateYamlData data).data.map Char.toNat =
      (data.map yamlByteSubst).takeWhile (fun b => b != 0) := by
  have hsubst : YAML_TRANSLATER.foldl
      (fun (buf : Mem) ft => buf.map fun b => if b = ft.1 then ft.2 else b) data
      = data.map yamlByteSubst := by
    simp only [YAML_TRANSLATER, List.foldl_cons, List.foldl_nil, List.map_map]
    refine List.map_congr_left fun b _ => ?_
    simp only [Function.comp_apply]
    unfold yamlByteSubst
    by_cases h1 : b = 0x81 <;> by_cases h2 : b = 0x8d <;> by_cases h3 : b = 0x8f <;>
      by_cases h4 : b = 0x90 <;> by_cases h5 : b = 0x9d <;> simp_all
  have h1 : translateYamlData data =
      String.mk (((data.map yamlByteSubst).takeWhile (fun b => b != 0)).map Char.ofNat) := by
    simp only [translateYamlData]
    rw [hsubst, jsTruncateAtZero_eq_takeWhile]
  have hlt : ∀ b ∈ (data.map yamlByteSubst).takeWhile (fun b => b != 0), b < 256 := by
    intro b hbmem
    have hb' : b ∈ data.map yamlByteSubst := List.takeWhile_subset _ hbmem
    obtain ⟨a, ha, rfl⟩ := List.mem_map.mp hb'
    unfold yamlByteSubst
    split_ifs
    · omega
    · exact hb a ha
  refine ⟨h1, ?_⟩
  rw [h1]
  show (((data.map yamlByteSubst).takeWhile (fun b => b != 0)).map Char.ofNat).map Char.toNat
      = (data.map yamlByteSubst).takeWhile (fun b => b != 0)
  rw [List.map_map]
  conv_rhs => rw [← List.map_id ((data.map yamlByteSubst).takeWhile (fun b => b != 0))]
  refine List.map_congr_left fun b hbmem => ?_
  simp only [Function.comp_apply, id_eq]
  exact charOfNat_toNat_of_lt (hlt b hbmem)

/-- C7 witness: the pipeline on a concrete buffer with a translated byte
and an embedded null byte. -/
theorem c7_translate_yaml_data_witness :
    translateYamlData [72, 129, 105, 0, 74] =
      String.mk ((([72, 129, 105, 0, 74].map yamlByteSubst).takeWhile (fun b => b != 0)).map Char.ofNat) ∧
    (translateYamlData [72, 129, 105, 0, 74]).data.map Char.toNat =
      ([72, 129, 105, 0, 74].map yamlByteSubst).takeWhile (fun b => b != 0) :=
  c7_translate_yaml_data [72, 129, 105, 0, 74] (by decide)
